/-
Verification of the glidex VM control plane against its specification.

The definitions below are a shallow embedding of the Rust sources:
  * `src/src/state.rs`        — `VmManager` (lifecycle manager / registry)
  * `src/src/persistence.rs`  — `VmStore` (redb-backed catalog)
  * `src/src/firecracker.rs`  — hypervisor client and console proxy
  * `src/crates/glidex-control-plane/src/models.rs` — data model

The in-memory registry (a `HashMap`) and the on-disk catalog (a keyed redb
table) are both modelled as association lists keyed by the VM id. External
effects whose outcome the code merely observes (process spawn, hypervisor
API calls, database commits) are supplied as explicit oracle parameters, so
every operation is a pure function of the prior system state and its oracle.
Killing a hypervisor child process is recorded on an effect trace.
-/
import Mathlib

namespace Glidex

/-! ## Data model (models.rs) -/

/-- VM lifecycle states, `models.rs` `VmState`. -/
inductive VmState
  | Created
  | Running
  | Paused
  | Stopped
deriving DecidableEq, Repr

/-- VM machine config, `models.rs` `VmConfig`. `vcpu_count` is a `u8`
and `mem_size_mib` a `u32` in the source; both are modelled as `Nat`. -/
structure VmConfig where
  vcpu_count : Nat
  mem_size_mib : Nat
  kernel_image_path : String
  rootfs_path : String
  kernel_args : String
deriving DecidableEq, Repr

/-- A VM record, `models.rs` `Vm`; persisted verbatim and held in memory. -/
structure Vm where
  id : String
  name : String
  state : VmState
  config : VmConfig
  socket_path : String
  console_socket_path : String
  log_path : String
deriving DecidableEq, Repr

/-- `Vm::new` from `models.rs`: the fresh UUID produced by `Uuid::new_v4`
is passed in as the `id` argument; the path triple is derived from it. -/
def Vm.new (id : String) (name : String) (config : VmConfig) : Vm :=
  { id := id
    name := name
    state := VmState.Created
    config := config
    socket_path := "/tmp/firecracker-" ++ id ++ ".sock"
    console_socket_path := "/tmp/firecracker-" ++ id ++ ".console.sock"
    log_path := "/tmp/firecracker-" ++ id ++ ".log" }

/-! ## Association lists standing for the redb table and the HashMap -/

/-- First-occurrence lookup in an association list. -/
def lookupA (k : String) : List (String × α) → Option α
  | [] => none
  | (k', v) :: rest => if k' = k then some v else lookupA k rest

/-- Insert-or-replace (replaces the first occurrence of the key, appends
otherwise) — the semantics of both `HashMap::insert` and redb
`table.insert` on a keyed table. -/
def insertA (k : String) (v : α) : List (String × α) → List (String × α)
  | [] => [(k, v)]
  | (k', v') :: rest =>
      if k' = k then (k, v) :: rest else (k', v') :: insertA k v rest

/-- Remove the first occurrence of a key — `HashMap::remove` / redb
`table.remove`. -/
def eraseA (k : String) : List (String × α) → List (String × α)
  | [] => []
  | (k', v') :: rest => if k' = k then rest else (k', v') :: eraseA k rest

theorem lookupA_insertA_self (k : String) (v : α) (l : List (String × α)) :
    lookupA k (insertA k v l) = some v := by
  induction l with
  | nil => simp [insertA, lookupA]
  | cons p rest ih =>
      obtain ⟨k', v'⟩ := p
      by_cases h : k' = k
      · simp [insertA, h, lookupA]
      · simp [insertA, h, lookupA, ih]

theorem lookupA_insertA_ne (k j : String) (v : α) (l : List (String × α))
    (h : k ≠ j) : lookupA j (insertA k v l) = lookupA j l := by
  induction l with
  | nil => simp [insertA, lookupA, h]
  | cons p rest ih =>
      obtain ⟨k', v'⟩ := p
      by_cases hk : k' = k
      · subst hk
        simp [insertA, lookupA, h, ih]
      · simp [insertA, hk, lookupA, ih]

theorem lookupA_eraseA_ne (k j : String) (l : List (String × α))
    (h : k ≠ j) : lookupA j (eraseA k l) = lookupA j l := by
  induction l with
  | nil => simp [eraseA]
  | cons p rest ih =>
      obtain ⟨k', v'⟩ := p
      by_cases hk : k' = k
      · subst hk
        simp [eraseA, lookupA, h]
      · simp [eraseA, hk, lookupA, ih]

theorem mem_insertA (k : String) (v : α) (l : List (String × α)) (p : String × α)
    (h : p ∈ insertA k v l) : p = (k, v) ∨ p ∈ l := by
  induction l with
  | nil => simpa [insertA] using h
  | cons q rest ih =>
      obtain ⟨k', v'⟩ := q
      by_cases hk : k' = k
      · simp only [insertA, hk, if_pos rfl] at h
        rcases List.mem_cons.mp h with h' | h'
        · exact Or.inl h'
        · exact Or.inr (List.mem_cons_of_mem _ h')
      · simp only [insertA, if_neg hk] at h
        rcases List.mem_cons.mp h with h' | h'
        · exact Or.inr (h' ▸ List.mem_cons_self _ _)
        · rcases ih h' with h'' | h''
          · exact Or.inl h''
          · exact Or.inr (List.mem_cons_of_mem _ h'')

theorem mem_eraseA (k : String) (l : List (String × α)) (p : String × α)
    (h : p ∈ eraseA k l) : p ∈ l := by
  induction l with
  | nil => simp [eraseA] at h
  | cons q rest ih =>
      obtain ⟨k', v'⟩ := q
      by_cases hk : k' = k
      · simp only [eraseA, hk, if_pos rfl] at h
        exact List.mem_cons_of_mem _ h
      · simp only [eraseA, if_neg hk] at h
        rcases List.mem_cons.mp h with h' | h'
        · exact h' ▸ List.mem_cons_self _ _
        · exact List.mem_cons_of_mem _ (ih h')

theorem lookupA_mem (k : String) (l : List (String × α)) (v : α)
    (h : lookupA k l = some v) : (k, v) ∈ l := by
  induction l with
  | nil => simp [lookupA] at h
  | cons q rest ih =>
      obtain ⟨k', v'⟩ := q
      by_cases hk : k' = k
      · subst hk
        simp [lookupA] at h
        subst h
        exact List.mem_cons_self _ _
      · simp only [lookupA, if_neg hk] at h
        exact List.mem_cons_of_mem _ (ih h)

/-! ## Errors (persistence.rs `PersistenceError`, firecracker.rs
`FirecrackerError`, state.rs `VmManagerError`) -/

/-- `persistence.rs` `PersistenceError`. All backend failure variants
(database, transaction, table, storage, commit, serialization, io) are
collapsed into `Storage`; `VmNotFound` is kept separately because
`update_state` raises it on an absent key. -/
inductive PersistenceError
  | Storage
  | VmNotFound (id : String)
deriving DecidableEq, Repr

/-- `firecracker.rs` `FirecrackerError`. -/
inductive FirecrackerError
  | ProcessStart (msg : String)
  | SocketConnection (msg : String)
  | ApiRequest (msg : String)
deriving DecidableEq, Repr

/-- `state.rs` `VmManagerError`. -/
inductive VmManagerError
  | VmNotFound (id : String)
  | VmAlreadyExists (name : String)
  | InvalidState (current : VmState) (operation : String)
  | FirecrackerError (e : FirecrackerError)
  | PersistenceError (e : PersistenceError)
deriving DecidableEq, Repr

/-! ## Catalog store (persistence.rs `VmStore`)

The redb table keyed by VM id is modelled as an association list.
Whether the backend itself succeeds (begin/commit of the write
transaction) is an oracle `Bool`. -/

/-- The persisted catalog: the one `vms` table, keyed by VM id. -/
abbrev Catalog := List (String × Vm)

/-- `VmStore::save`: insert-or-replace under `vm.id`, in one transaction. -/
def VmStore.save (c : Catalog) (vm : Vm) (commitOk : Bool) :
    Except PersistenceError Catalog :=
  if commitOk then Except.ok (insertA vm.id vm c) else Except.error PersistenceError.Storage

/-- `VmStore::delete`: remove the key; a no-op (still a success) if absent. -/
def VmStore.delete (c : Catalog) (vmId : String) (commitOk : Bool) :
    Except PersistenceError Catalog :=
  if commitOk then Except.ok (eraseA vmId c) else Except.error PersistenceError.Storage

/-- `VmStore::update_state`: read-modify-write within one transaction;
`VmNotFound` if the key is absent at the read, else only the `state`
field of the stored record is replaced. -/
def VmStore.update_state (c : Catalog) (vmId : String) (newState : VmState)
    (commitOk : Bool) : Except PersistenceError Catalog :=
  if commitOk then
    match lookupA vmId c with
    | none => Except.error (PersistenceError.VmNotFound vmId)
    | some vm => Except.ok (insertA vmId { vm with state := newState } c)
  else Except.error PersistenceError.Storage

/-! ## Lifecycle manager (state.rs `VmManager`) -/

/-- `state.rs` `VmEntry`: a registry slot. The `FirecrackerProcess`
handle is modelled as an opaque token (the spawn oracle chooses it); what
the registry stores is only its presence. -/
structure VmEntry where
  vm : Vm
  process : Option Nat
deriving DecidableEq, Repr

/-- The manager state: the in-memory registry (`vms : HashMap`), the
persistent catalog behind `store`, and a trace of the process-handle
tokens on which `FirecrackerProcess::kill` has been invoked (most recent
first). -/
structure Sys where
  vms : List (String × VmEntry)
  catalog : Catalog
  kills : List Nat
deriving DecidableEq, Repr

/-- Effect trace helper: `process.kill()` on an optional handle. -/
def recordKill (p : Option Nat) (ks : List Nat) : List Nat :=
  match p with
  | some h => h :: ks
  | none => ks

/-- `VmManager::create_vm`. `newId` is the UUID freshly drawn by
`Vm::new`; `saveOk` is the catalog-commit oracle. -/
def createVm (s : Sys) (newId : String) (name : String) (config : VmConfig)
    (saveOk : Bool) : Sys × Except VmManagerError Vm :=
  if s.vms.any (fun p => p.2.vm.name = name) then
    (s, Except.error (VmManagerError.VmAlreadyExists name))
  else
    let vm := Vm.new newId name config
    match VmStore.save s.catalog vm saveOk with
    | Except.error e => (s, Except.error (VmManagerError.PersistenceError e))
    | Except.ok c' =>
        ({ s with catalog := c',
                  vms := insertA vm.id { vm := vm, process := none } s.vms },
         Except.ok vm)

/-- Outcomes of the external calls `start_vm` makes, in program order:
`FirecrackerProcess::spawn` (yielding a handle token on success),
`configure_vm` (the three configuration calls), `firecracker::start_vm`
(InstanceStart), `resume_vm` (Paused path), and the catalog commit. -/
structure StartOracle where
  spawnRes : Except FirecrackerError Nat
  configureRes : Except FirecrackerError Unit
  startRes : Except FirecrackerError Unit
  resumeRes : Except FirecrackerError Unit
  persistOk : Bool

/-- `VmManager::start_vm`. -/
def startVm (s : Sys) (vmId : String) (o : StartOracle) :
    Sys × Except VmManagerError Vm :=
  match lookupA vmId s.vms with
  | none => (s, Except.error (VmManagerError.VmNotFound vmId))
  | some entry =>
    match entry.vm.state with
    | VmState.Created | VmState.Stopped =>
        match o.spawnRes with
        | Except.error e => (s, Except.error (VmManagerError.FirecrackerError e))
        | Except.ok handle =>
          match o.configureRes with
          | Except.error e =>
              ({ s with kills := handle :: s.kills },
               Except.error (VmManagerError.FirecrackerError e))
          | Except.ok _ =>
            match o.startRes with
            | Except.error e =>
                ({ s with kills := handle :: s.kills },
                 Except.error (VmManagerError.FirecrackerError e))
            | Except.ok _ =>
              match VmStore.update_state s.catalog vmId VmState.Running o.persistOk with
              | Except.error e =>
                  ({ s with kills := handle :: s.kills },
                   Except.error (VmManagerError.PersistenceError e))
              | Except.ok c' =>
                  let vm' := { entry.vm with state := VmState.Running }
                  ({ s with catalog := c',
                            vms := insertA vmId { vm := vm', process := some handle } s.vms },
                   Except.ok vm')
    | VmState.Paused =>
        match o.resumeRes with
        | Except.error e => (s, Except.error (VmManagerError.FirecrackerError e))
        | Except.ok _ =>
          match VmStore.update_state s.catalog vmId VmState.Running o.persistOk with
          | Except.error e =>
              -- best-effort `pause_vm` rollback touches only the guest
              (s, Except.error (VmManagerError.PersistenceError e))
          | Except.ok c' =>
              let vm' := { entry.vm with state := VmState.Running }
              ({ s with catalog := c',
                        vms := insertA vmId { vm := vm', process := entry.process } s.vms },
               Except.ok vm')
    | VmState.Running =>
        (s, Except.error (VmManagerError.InvalidState VmState.Running "start"))

/-- `VmManager::stop_vm`. A catalog failure is logged and swallowed. -/
def stopVm (s : Sys) (vmId : String) (persistOk : Bool) :
    Sys × Except VmManagerError Vm :=
  match lookupA vmId s.vms with
  | none => (s, Except.error (VmManagerError.VmNotFound vmId))
  | some entry =>
    match entry.vm.state with
    | VmState.Running | VmState.Paused =>
        let vm' := { entry.vm with state := VmState.Stopped }
        let c' := match VmStore.update_state s.catalog vmId VmState.Stopped persistOk with
          | Except.ok c' => c'
          | Except.error _ => s.catalog
        ({ s with vms := insertA vmId { vm := vm', process := none } s.vms,
                  catalog := c',
                  kills := recordKill entry.process s.kills },
         Except.ok vm')
    | st => (s, Except.error (VmManagerError.InvalidState st "stop"))

/-- `VmManager::pause_vm`. `pauseRes` is the `firecracker::pause_vm`
outcome, `persistOk` the catalog commit. -/
def pauseVm (s : Sys) (vmId : String) (pauseRes : Except FirecrackerError Unit)
    (persistOk : Bool) : Sys × Except VmManagerError Vm :=
  match lookupA vmId s.vms with
  | none => (s, Except.error (VmManagerError.VmNotFound vmId))
  | some entry =>
    if entry.vm.state = VmState.Running then
      match pauseRes with
      | Except.error e => (s, Except.error (VmManagerError.FirecrackerError e))
      | Except.ok _ =>
        match VmStore.update_state s.catalog vmId VmState.Paused persistOk with
        | Except.error e =>
            -- best-effort `resume_vm` rollback touches only the guest
            (s, Except.error (VmManagerError.PersistenceError e))
        | Except.ok c' =>
            let vm' := { entry.vm with state := VmState.Paused }
            ({ s with catalog := c',
                      vms := insertA vmId { vm := vm', process := entry.process } s.vms },
             Except.ok vm')
    else (s, Except.error (VmManagerError.InvalidState entry.vm.state "pause"))

/-- `VmManager::get_vm`: pure read. -/
def getVm (s : Sys) (vmId : String) : Except VmManagerError Vm :=
  match lookupA vmId s.vms with
  | some entry => Except.ok entry.vm
  | none => Except.error (VmManagerError.VmNotFound vmId)

/-- `VmManager::list_vms`: pure read. -/
def listVms (s : Sys) : List Vm :=
  s.vms.map (fun p => p.2.vm)

/-- `VmManager::delete_vm`: kill the handle if present (the `Option`
field itself is not cleared), delete from the catalog, and only on
success remove the registry entry. -/
def deleteVm (s : Sys) (vmId : String) (deleteOk : Bool) :
    Sys × Except VmManagerError Unit :=
  match lookupA vmId s.vms with
  | none => (s, Except.error (VmManagerError.VmNotFound vmId))
  | some entry =>
    let ks := recordKill entry.process s.kills
    match VmStore.delete s.catalog vmId deleteOk with
    | Except.error e =>
        ({ s with kills := ks }, Except.error (VmManagerError.PersistenceError e))
    | Except.ok c' =>
        ({ s with kills := ks, catalog := c', vms := eraseA vmId s.vms },
         Except.ok ())

/-- `VmManager::reconcile_vm_state`: Running/Paused records become
Stopped (socket-file cleanup is a filesystem effect only); Created and
Stopped are kept as-is. -/
def reconcileVmState (vm : Vm) : VmState :=
  match vm.state with
  | VmState.Running => VmState.Stopped
  | VmState.Paused => VmState.Stopped
  | VmState.Created => vm.state
  | VmState.Stopped => vm.state

/-- The loop body of `VmManager::initialize` over the `load_all`
snapshot. `saveOk` gives the commit outcome of the reconciliation
write-back for each id. On a failed save the loop aborts, keeping the
registry entries inserted so far (the `?` early return in the source). -/
def initLoop (saveOk : String → Bool) : List Vm → Sys → Sys × Except PersistenceError Unit
  | [], s => (s, Except.ok ())
  | vm :: rest, s =>
      let rs := reconcileVmState vm
      if vm.state = rs then
        initLoop saveOk rest
          { s with vms := insertA vm.id { vm := vm, process := none } s.vms }
      else
        let vm' := { vm with state := rs }
        match VmStore.save s.catalog vm' (saveOk vm.id) with
        | Except.error e => (s, Except.error e)
        | Except.ok c' =>
            initLoop saveOk rest
              { s with catalog := c',
                       vms := insertA vm.id { vm := vm', process := none } s.vms }

/-- The `VmManager` initialization entry point: load every persisted
record and reconcile. -/
def initManager (s : Sys) (saveOk : String → Bool) :
    Sys × Except VmManagerError Unit :=
  let r := initLoop saveOk (s.catalog.map Prod.snd) s
  (r.1, r.2.mapError VmManagerError.PersistenceError)

/-! ## Operation alphabet and runs -/

/-- One public manager operation together with the oracle for its
external effects. -/
inductive Op
  | create (newId name : String) (config : VmConfig) (saveOk : Bool)
  | start (vmId : String) (o : StartOracle)
  | stop (vmId : String) (persistOk : Bool)
  | pause (vmId : String) (res : Except FirecrackerError Unit) (persistOk : Bool)
  | delete (vmId : String) (deleteOk : Bool)
  | init (saveOk : String → Bool)

/-- The state reached after one operation (the result value dropped). -/
def stepOp (s : Sys) : Op → Sys
  | Op.create newId name config saveOk => (createVm s newId name config saveOk).1
  | Op.start vmId o => (startVm s vmId o).1
  | Op.stop vmId persistOk => (stopVm s vmId persistOk).1
  | Op.pause vmId res persistOk => (pauseVm s vmId res persistOk).1
  | Op.delete vmId deleteOk => (deleteVm s vmId deleteOk).1
  | Op.init saveOk => (initManager s saveOk).1

/-- Run a sequence of operations. -/
def runOps (s : Sys) : List Op → Sys
  | [] => s
  | op :: ops => runOps (stepOp s op) ops

/-! ## Hypervisor client (firecracker.rs `FirecrackerClient`)

Each call sends one request over the control socket and inspects the
response text assembled by `send_request` (status line, headers, and the
`Content-Length`-sized body). The wire outcome is the oracle: `none`
stands for a failed `UnixStream::connect`, `some resp` for the full
response text read. -/

/-- Boolean list-prefix test over characters. -/
def isPrefixL : List Char → List Char → Bool
  | [], _ => true
  | _ :: _, [] => false
  | a :: as, b :: bs => a = b && isPrefixL as bs

/-- Boolean substring-occurrence test over characters. -/
def isInfixL (pat : List Char) : List Char → Bool
  | [] => pat.isEmpty
  | b :: bs => isPrefixL pat (b :: bs) || isInfixL pat bs

/-- Rust `str::contains` on the response text. -/
def respContains (resp pat : String) : Bool :=
  isInfixL pat.toList resp.toList

/-- The success test every client call applies to the response
(firecracker.rs lines 127, 148, 171, 191, 205, 219):
`response.contains("HTTP/1.1 204") || response.contains("HTTP/1.1 200")`
over the whole assembled response text. -/
def respOk (resp : String) : Bool :=
  respContains resp "HTTP/1.1 204" || respContains resp "HTTP/1.1 200"

/-- Shared shape of one client call: `send_request` either fails to
connect (a `SocketConnection` error) or yields the response text, which
is then checked with `respOk`; a failing check produces an `ApiRequest`
error that embeds the raw response after the call-specific prefix. -/
def clientCall (failPrefix : String) (wire : Option String) :
    Except FirecrackerError Unit :=
  match wire with
  | none => Except.error (FirecrackerError.SocketConnection "connect failed")
  | some resp =>
      if respOk resp then Except.ok ()
      else Except.error (FirecrackerError.ApiRequest (failPrefix ++ resp))

/-- `FirecrackerClient::configure_machine` (PUT /machine-config). -/
def configureMachine (wire : Option String) : Except FirecrackerError Unit :=
  clientCall "Failed to configure machine: " wire

/-- `FirecrackerClient::set_boot_source` (PUT /boot-source). -/
def setBootSource (wire : Option String) : Except FirecrackerError Unit :=
  clientCall "Failed to set boot source: " wire

/-- `FirecrackerClient::add_root_drive` (PUT /drives/rootfs). -/
def addRootDrive (wire : Option String) : Except FirecrackerError Unit :=
  clientCall "Failed to add root drive: " wire

/-- `FirecrackerClient::start_instance` (PUT /actions). -/
def startInstance (wire : Option String) : Except FirecrackerError Unit :=
  clientCall "Failed to start instance: " wire

/-- `FirecrackerClient::pause_instance` (PATCH /vm). -/
def pauseInstance (wire : Option String) : Except FirecrackerError Unit :=
  clientCall "Failed to pause instance: " wire

/-- `FirecrackerClient::resume_instance` (PATCH /vm). -/
def resumeInstance (wire : Option String) : Except FirecrackerError Unit :=
  clientCall "Failed to resume instance: " wire

/-- Characters of the first line (up to the first CR or LF). -/
def takeUntilEol : List Char → List Char
  | [] => []
  | c :: rest => if c = '\r' ∨ c = '\n' then [] else c :: takeUntilEol rest

/-- Drop through the first space. -/
def dropTok : List Char → List Char
  | [] => []
  | c :: rest => if c = ' ' then rest else dropTok rest

/-- Take up to the next space. -/
def takeTok : List Char → List Char
  | [] => []
  | c :: rest => if c = ' ' then [] else c :: takeTok rest

/-- The spec's wording of the success condition targets the status line
of the response: its code is the second whitespace-separated token of
the first line. -/
def statusLineCode (resp : String) : String :=
  String.mk (takeTok (dropTok (takeUntilEol resp.toList)))

/-- Success as the spec words it: status-line code 200 or 204. -/
def specStatusOk (resp : String) : Bool :=
  statusLineCode resp = "200" || statusLineCode resp = "204"

/-! ## Console multiplexer (firecracker.rs `console_proxy_loop`)

The chunk-handling section of the loop (lines 349–365) is embedded as a
trace of I/O events emitted in program order for one chunk read from the
PTY master: append to the log file, flush it, then attempt the write to
each connected client in order, retaining those whose write succeeded. -/

/-- One observable I/O action of the console proxy. -/
inductive ConsoleEvent
  | logAppend (data : String)
  | logFlush
  | clientWrite (client : Nat) (data : String)
deriving DecidableEq, Repr

/-- A connected console client: its identity and whether `write_all` on
it succeeds for this chunk. -/
structure ConsoleClient where
  id : Nat
  writeOk : Bool
deriving DecidableEq, Repr

/-- Lines 354–364 of firecracker.rs for one `Ok(n)` read of `data`:
the emitted event trace and the retained client list. -/
def handleChunk (data : String) (clients : List ConsoleClient) :
    List ConsoleEvent × List ConsoleClient :=
  (ConsoleEvent.logAppend data :: ConsoleEvent.logFlush ::
     clients.map (fun c => ConsoleEvent.clientWrite c.id data),
   clients.filter (fun c => c.writeOk))

/-! ## General lemmas about the store and manager operations -/

/-- After a successful `update_state`, the record under the key carries
exactly the new state. -/
theorem update_state_ok_state (c : Catalog) (vmId : String) (ns : VmState)
    (ok : Bool) (c' : Catalog)
    (h : VmStore.update_state c vmId ns ok = Except.ok c') :
    (lookupA vmId c').map Vm.state = some ns := by
  unfold VmStore.update_state at h
  cases ok with
  | false => simp at h
  | true =>
      simp only [if_pos] at h
      cases hl : lookupA vmId c with
      | none => rw [hl] at h; simp at h
      | some vm =>
          rw [hl] at h
          simp only [Except.ok.injEq] at h
          rw [← h, lookupA_insertA_self]
          rfl

/-! ## Concrete material shared by the witnesses -/

/-- A well-formed sample config (the S2 scenario of the spec). -/
def cfgW : VmConfig :=
  { vcpu_count := 2
    mem_size_mib := 512
    kernel_image_path := "/k"
    rootfs_path := "/r"
    kernel_args := "console=ttyS0 reboot=k panic=1 pci=off" }

/-- The sample VM. -/
def vmW : Vm := Vm.new "vm-1" "test-vm" cfgW

/-- The sample VM once running. -/
def vmWRunning : Vm := { vmW with state := VmState.Running }

/-- A system holding the sample VM as Running with a live handle. -/
def sysW : Sys :=
  { vms := [("vm-1", { vm := vmWRunning, process := some 7 })]
    catalog := [("vm-1", vmWRunning)]
    kills := [] }

/-- The empty system over an empty catalog (a fresh `VmManager`). -/
def sysEmpty : Sys := { vms := [], catalog := [], kills := [] }

/-! ## C9 — update_state is a frame: only `state` changes -/

/-- C9: a successful `update_state(id, new_state)` replaces only the
`state` field of the stored record — id, name, the five config fields
and the three paths are preserved — and leaves every other key of the
catalog untouched. -/
theorem C9_update_state_frame (c : Catalog) (vmId j : String) (ns : VmState)
    (ok : Bool) (c' : Catalog) (old : Vm)
    (hup : VmStore.update_state c vmId ns ok = Except.ok c')
    (hold : lookupA vmId c = some old) (hj : j ≠ vmId) :
    lookupA vmId c' =
      some { id := old.id, name := old.name, state := ns, config := old.config,
             socket_path := old.socket_path,
             console_socket_path := old.console_socket_path,
             log_path := old.log_path } ∧
    lookupA j c' = lookupA j c := by
  unfold VmStore.update_state at hup
  cases ok with
  | false => simp at hup
  | true =>
      simp only [if_pos] at hup
      rw [hold] at hup
      simp only [Except.ok.injEq] at hup
      subst hup
      constructor
      · rw [lookupA_insertA_self]
      · exact lookupA_insertA_ne _ _ _ _ (fun h => hj h.symm)

/-- Witness for C9 at a concrete catalog. -/
theorem C9_update_state_frame_witness :
    lookupA "vm-1" (insertA "vm-1" { vmW with state := VmState.Paused } [("vm-1", vmW)]) =
      some { id := vmW.id, name := vmW.name, state := VmState.Paused,
             config := vmW.config, socket_path := vmW.socket_path,
             console_socket_path := vmW.console_socket_path,
             log_path := vmW.log_path } ∧
    lookupA "vm-2" (insertA "vm-1" { vmW with state := VmState.Paused } [("vm-1", vmW)]) =
      lookupA "vm-2" [("vm-1", vmW)] :=
  C9_update_state_frame [("vm-1", vmW)] "vm-1" "vm-2" VmState.Paused true
    (insertA "vm-1" { vmW with state := VmState.Paused } [("vm-1", vmW)]) vmW
    (by rfl) (by rfl) (by decide)

/-! ## C10 — a failed catalog delete leaves the VM in the registry -/

/-- C10: when the catalog delete fails inside `delete_vm`, the error is
surfaced, the registry (including the entry's state and its process
handle field) and the catalog are unchanged, the VM is still visible to
`get` and `list`, and the hypervisor process has already been killed
(when a handle was present). -/
theorem C10_delete_fail_keeps_vm (s : Sys) (vmId : String) (e : VmEntry)
    (hlook : lookupA vmId s.vms = some e) :
    deleteVm s vmId false =
      ({ s with kills := recordKill e.process s.kills },
       Except.error (VmManagerError.PersistenceError PersistenceError.Storage)) ∧
    getVm (deleteVm s vmId false).1 vmId = Except.ok e.vm ∧
    e.vm ∈ listVms (deleteVm s vmId false).1 := by
  have hdel : deleteVm s vmId false =
      ({ s with kills := recordKill e.process s.kills },
       Except.error (VmManagerError.PersistenceError PersistenceError.Storage)) := by
    unfold deleteVm
    rw [hlook]
    rfl
  refine ⟨hdel, ?_, ?_⟩
  · rw [hdel]
    unfold getVm
    simp only
    rw [hlook]
  · rw [hdel]
    unfold listVms
    simp only
    exact List.mem_map.mpr ⟨(vmId, e), lookupA_mem _ _ _ hlook, rfl⟩

/-- Witness for C10 on the concrete running system. -/
theorem C10_delete_fail_keeps_vm_witness :
    deleteVm sysW "vm-1" false =
      ({ sysW with kills := recordKill (some 7) sysW.kills },
       Except.error (VmManagerError.PersistenceError PersistenceError.Storage)) ∧
    getVm (deleteVm sysW "vm-1" false).1 "vm-1" = Except.ok vmWRunning ∧
    vmWRunning ∈ listVms (deleteVm sysW "vm-1" false).1 :=
  C10_delete_fail_keeps_vm sysW "vm-1" { vm := vmWRunning, process := some 7 } (by rfl)

/-! ## C4 — stop succeeds even when persistence fails -/

/-- C4: for a VM whose in-memory state is Running or Paused, `stop_vm`
returns success with the VM Stopped and the handle cleared, for every
outcome of the catalog `update_state` call: the persistence failure is
never surfaced. -/
theorem C4_stop_ok_despite_persist_fail (s : Sys) (vmId : String) (e : VmEntry)
    (persistOk : Bool) (hlook : lookupA vmId s.vms = some e)
    (hstate : e.vm.state = VmState.Running ∨ e.vm.state = VmState.Paused) :
    (stopVm s vmId persistOk).2 = Except.ok { e.vm with state := VmState.Stopped } ∧
    lookupA vmId (stopVm s vmId persistOk).1.vms =
      some { vm := { e.vm with state := VmState.Stopped }, process := none } := by
  rcases hstate with h | h <;>
    · simp only [stopVm, hlook, h]
      exact ⟨trivial, lookupA_insertA_self _ _ _⟩

/-- Witness for C4: stopping the running sample VM with a failing
catalog commit still succeeds. -/
theorem C4_stop_ok_despite_persist_fail_witness :
    (stopVm sysW "vm-1" false).2 =
      Except.ok { vmWRunning with state := VmState.Stopped } ∧
    lookupA "vm-1" (stopVm sysW "vm-1" false).1.vms =
      some { vm := { vmWRunning with state := VmState.Stopped }, process := none } :=
  C4_stop_ok_despite_persist_fail sysW "vm-1" { vm := vmWRunning, process := some 7 }
    false (by rfl) (Or.inl (by rfl))

/-! ## C8 — the log append happens before every client write -/

/-- C8: in the event trace the console proxy emits for one chunk read
from the PTY master, the append of that chunk to the log file occurs at
a strictly earlier position than every write of the chunk to a connected
console client. -/
theorem C8_log_append_before_fanout (data : String) (clients : List ConsoleClient)
    (i : Nat) (c : Nat) (d : String)
    (hi : (handleChunk data clients).1.get? i = some (ConsoleEvent.clientWrite c d)) :
    ∃ j, j < i ∧
      (handleChunk data clients).1.get? j = some (ConsoleEvent.logAppend data) := by
  refine ⟨0, ?_, rfl⟩
  cases i with
  | zero => simp [handleChunk] at hi
  | succ n => exact Nat.succ_pos n

/-- Witness for C8 on a concrete chunk and client list. -/
theorem C8_log_append_before_fanout_witness :
    ∃ j, j < 2 ∧
      (handleChunk "boot: ok" [{ id := 1, writeOk := true }]).1.get? j =
        some (ConsoleEvent.logAppend "boot: ok") :=
  C8_log_append_before_fanout "boot: ok" [{ id := 1, writeOk := true }] 2 1 "boot: ok"
    (by rfl)

/-! ## C1 — persisted before acknowledged -/

/-- The state recorded in the catalog for a VM id. -/
def catalogState (s : Sys) (vmId : String) : Option VmState :=
  (lookupA vmId s.catalog).map Vm.state

/-- The state recorded in the in-memory registry for a VM id. -/
def registryState (s : Sys) (vmId : String) : Option VmState :=
  (lookupA vmId s.vms).map (fun e => e.vm.state)

/-- The cold-start path of `start_vm` (state Created or Stopped):
a successful return leaves catalog and registry at the returned state. -/
theorem startVm_fresh_path_ack (s : Sys) (vmId : String) (o : StartOracle)
    (s' : Sys) (v : Vm) (entry : VmEntry)
    (hl : lookupA vmId s.vms = some entry)
    (hst : entry.vm.state = VmState.Created ∨ entry.vm.state = VmState.Stopped)
    (h : startVm s vmId o = (s', Except.ok v)) :
    catalogState s' vmId = some v.state ∧ registryState s' vmId = some v.state := by
  rcases hst with hst | hst <;>
  · cases hsp : o.spawnRes with
    | error e => simp [startVm, hl, hst, hsp] at h
    | ok handle =>
      cases hcf : o.configureRes with
      | error e => simp [startVm, hl, hst, hsp, hcf] at h
      | ok u =>
        cases hsr : o.startRes with
        | error e => simp [startVm, hl, hst, hsp, hcf, hsr] at h
        | ok u2 =>
          cases hup : VmStore.update_state s.catalog vmId VmState.Running o.persistOk with
          | error e => simp [startVm, hl, hst, hsp, hcf, hsr, hup] at h
          | ok c' =>
            simp only [startVm, hl, hst, hsp, hcf, hsr, hup, Prod.mk.injEq,
              Except.ok.injEq] at h
            obtain ⟨hs', hv⟩ := h
            subst hs'
            subst hv
            exact ⟨update_state_ok_state _ _ _ _ _ hup,
                   by simp [registryState, lookupA_insertA_self]⟩

/-- C1: whenever `start_vm`, `pause_vm` or `create_vm` returns
successfully, the state serialized in the catalog for that VM at the
moment of return equals the in-memory state returned to the caller
(start and pause persist through `update_state` strictly before the
registry mutation; create persists the whole record through `save`
first). -/
theorem C1_persist_before_ack :
    (∀ (s : Sys) (vmId : String) (o : StartOracle) (s' : Sys) (v : Vm),
       startVm s vmId o = (s', Except.ok v) →
       catalogState s' vmId = some v.state ∧ registryState s' vmId = some v.state) ∧
    (∀ (s : Sys) (vmId : String) (r : Except FirecrackerError Unit) (ok : Bool)
       (s' : Sys) (v : Vm),
       pauseVm s vmId r ok = (s', Except.ok v) →
       catalogState s' vmId = some v.state ∧ registryState s' vmId = some v.state) ∧
    (∀ (s : Sys) (nid name : String) (cfg : VmConfig) (ok : Bool) (s' : Sys) (v : Vm),
       createVm s nid name cfg ok = (s', Except.ok v) →
       catalogState s' v.id = some v.state ∧ registryState s' v.id = some v.state) := by
  refine ⟨?_, ?_, ?_⟩
  · intro s vmId o s' v h
    cases hl : lookupA vmId s.vms with
    | none => simp [startVm, hl] at h
    | some entry =>
      cases hst : entry.vm.state with
      | Created => exact startVm_fresh_path_ack s vmId o s' v entry hl (Or.inl hst) h
      | Stopped => exact startVm_fresh_path_ack s vmId o s' v entry hl (Or.inr hst) h
      | Running => simp [startVm, hl, hst] at h
      | Paused =>
        cases hr : o.resumeRes with
        | error e => simp [startVm, hl, hst, hr] at h
        | ok u =>
          cases hup : VmStore.update_state s.catalog vmId VmState.Running o.persistOk with
          | error e => simp [startVm, hl, hst, hr, hup] at h
          | ok c' =>
            simp only [startVm, hl, hst, hr, hup, Prod.mk.injEq, Except.ok.injEq] at h
            obtain ⟨hs', hv⟩ := h
            subst hs'
            subst hv
            exact ⟨update_state_ok_state _ _ _ _ _ hup,
                   by simp [registryState, lookupA_insertA_self]⟩
  · intro s vmId r ok s' v h
    cases hl : lookupA vmId s.vms with
    | none => simp [pauseVm, hl] at h
    | some entry =>
      by_cases hst : entry.vm.state = VmState.Running
      · cases hr : r with
        | error e => simp [pauseVm, hl, hst, hr] at h
        | ok u =>
          cases hup : VmStore.update_state s.catalog vmId VmState.Paused ok with
          | error e => simp [pauseVm, hl, hst, hr, hup] at h
          | ok c' =>
            simp only [pauseVm, hl, hst, if_pos, hr, hup, Prod.mk.injEq,
              Except.ok.injEq] at h
            obtain ⟨hs', hv⟩ := h
            subst hs'
            subst hv
            exact ⟨update_state_ok_state _ _ _ _ _ hup,
                   by simp [registryState, lookupA_insertA_self]⟩
      · simp [pauseVm, hl, hst] at h
  · intro s nid name cfg ok s' v h
    by_cases hname : s.vms.any (fun p => p.2.vm.name = name)
    · simp [createVm, hname] at h
    · cases ok with
      | false => simp [createVm, hname, VmStore.save] at h
      | true =>
        simp only [createVm, hname, if_neg, VmStore.save, if_pos, Bool.false_eq_true,
          not_false_eq_true, Prod.mk.injEq, Except.ok.injEq] at h
        obtain ⟨hs', hv⟩ := h
        subst hs'
        subst hv
        constructor
        · simp only [catalogState]
          rw [lookupA_insertA_self]
          rfl
        · simp only [registryState]
          rw [lookupA_insertA_self]
          rfl

/-- A system holding the sample VM as Created, both in the registry and
in the catalog. -/
def sysWCreated : Sys :=
  { vms := [("vm-1", { vm := vmW, process := none })]
    catalog := [("vm-1", vmW)]
    kills := [] }

/-- An all-success oracle for `start_vm`. -/
def oracleOk : StartOracle :=
  { spawnRes := Except.ok 7
    configureRes := Except.ok ()
    startRes := Except.ok ()
    resumeRes := Except.ok ()
    persistOk := true }

/-- Witness for C1: a concrete successful start, pause, and create each
leave catalog and registry agreeing with the returned state. -/
theorem C1_persist_before_ack_witness :
    (catalogState (startVm sysWCreated "vm-1" oracleOk).1 "vm-1" = some VmState.Running ∧
     registryState (startVm sysWCreated "vm-1" oracleOk).1 "vm-1" = some VmState.Running) ∧
    (catalogState (pauseVm sysW "vm-1" (Except.ok ()) true).1 "vm-1" = some VmState.Paused ∧
     registryState (pauseVm sysW "vm-1" (Except.ok ()) true).1 "vm-1" = some VmState.Paused) ∧
    (catalogState (createVm sysEmpty "vm-1" "test-vm" cfgW true).1 "vm-1" = some VmState.Created ∧
     registryState (createVm sysEmpty "vm-1" "test-vm" cfgW true).1 "vm-1" = some VmState.Created) :=
  ⟨C1_persist_before_ack.1 sysWCreated "vm-1" oracleOk
     (startVm sysWCreated "vm-1" oracleOk).1 vmWRunning rfl,
   C1_persist_before_ack.2.1 sysW "vm-1" (Except.ok ()) true
     (pauseVm sysW "vm-1" (Except.ok ()) true).1 { vmWRunning with state := VmState.Paused } rfl,
   C1_persist_before_ack.2.2 sysEmpty "vm-1" "test-vm" cfgW true
     (createVm sysEmpty "vm-1" "test-vm" cfgW true).1 vmW rfl⟩

/-! ## C5 — config ranges are not enforced (corrected) -/

/-- A config outside the spec's documented ranges: zero vCPUs and less
than 128 MiB of memory. -/
def cfgOut : VmConfig :=
  { vcpu_count := 0
    mem_size_mib := 64
    kernel_image_path := "/k"
    rootfs_path := "/r"
    kernel_args := "" }

/-- C5 counterexample: `create_vm` happily accepts `vcpu_count = 0` and
`mem_size_mib = 64`, returns success, and both the registry and the
catalog end up holding a record outside the ranges the claim asserts. -/
theorem C5_counterexample :
    (createVm sysEmpty "vm-9" "tiny" cfgOut true).2 =
      Except.ok (Vm.new "vm-9" "tiny" cfgOut) ∧
    (Vm.new "vm-9" "tiny" cfgOut).config.vcpu_count = 0 ∧
    (Vm.new "vm-9" "tiny" cfgOut).config.mem_size_mib = 64 ∧
    lookupA "vm-9" (createVm sysEmpty "vm-9" "tiny" cfgOut true).1.catalog =
      some (Vm.new "vm-9" "tiny" cfgOut) ∧
    lookupA "vm-9" (createVm sysEmpty "vm-9" "tiny" cfgOut true).1.vms =
      some { vm := Vm.new "vm-9" "tiny" cfgOut, process := none } :=
  ⟨rfl, rfl, rfl, rfl, rfl⟩

/-- C5 amended: no range validation is performed anywhere on the create
path — a successful `create` passes the caller-supplied config through
verbatim (whatever its `vcpu_count` and `mem_size_mib`) into the
returned record, the catalog, and the registry. -/
theorem C5_amended_config_passthrough (s : Sys) (nid name : String)
    (cfg : VmConfig) (ok : Bool) (s' : Sys) (v : Vm)
    (h : createVm s nid name cfg ok = (s', Except.ok v)) :
    v.config = cfg ∧ v = Vm.new nid name cfg ∧
    lookupA v.id s'.catalog = some v ∧
    lookupA v.id s'.vms = some { vm := v, process := none } := by
  by_cases hname : s.vms.any (fun p => p.2.vm.name = name)
  · simp [createVm, hname] at h
  · cases ok with
    | false => simp [createVm, hname, VmStore.save] at h
    | true =>
      simp only [createVm, hname, if_neg, VmStore.save, if_pos, Bool.false_eq_true,
        not_false_eq_true, Prod.mk.injEq, Except.ok.injEq] at h
      obtain ⟨hs', hv⟩ := h
      subst hs'
      subst hv
      exact ⟨rfl, rfl, lookupA_insertA_self _ _ _, lookupA_insertA_self _ _ _⟩

/-- Witness for the amended C5, at the out-of-range config. -/
theorem C5_amended_config_passthrough_witness :
    (Vm.new "vm-9" "tiny" cfgOut).config = cfgOut ∧
    Vm.new "vm-9" "tiny" cfgOut = Vm.new "vm-9" "tiny" cfgOut ∧
    lookupA (Vm.new "vm-9" "tiny" cfgOut).id
        (createVm sysEmpty "vm-9" "tiny" cfgOut true).1.catalog =
      some (Vm.new "vm-9" "tiny" cfgOut) ∧
    lookupA (Vm.new "vm-9" "tiny" cfgOut).id
        (createVm sysEmpty "vm-9" "tiny" cfgOut true).1.vms =
      some { vm := Vm.new "vm-9" "tiny" cfgOut, process := none } :=
  C5_amended_config_passthrough sysEmpty "vm-9" "tiny" cfgOut true
    (createVm sysEmpty "vm-9" "tiny" cfgOut true).1 (Vm.new "vm-9" "tiny" cfgOut) rfl

/-! ## C6 — success is a substring check, not a status-line check
(corrected) -/

/-- A response whose status line is 500 but whose body mentions the
string the client greps for. -/
def respTrick : String := "HTTP/1.1 500\r\n\r\nsaw HTTP/1.1 200"

/-- C6 counterexample: the client calls test
`response.contains("HTTP/1.1 204") || response.contains("HTTP/1.1 200")`
over the whole response text, so a response whose status line is 500 but
whose body mentions "HTTP/1.1 200" is treated as a success — refuting
"succeeds iff the status line is 200 or 204". -/
theorem C6_counterexample :
    statusLineCode respTrick = "500" ∧
    specStatusOk respTrick = false ∧
    configureMachine (some respTrick) = Except.ok () :=
  ⟨by decide, by decide, rfl⟩

/-- Bool success projection of a client-call result. -/
def callOk (r : Except FirecrackerError Unit) : Bool :=
  match r with
  | Except.ok _ => true
  | Except.error _ => false

/-- C6 amended: every one of the six hypervisor control calls succeeds
iff the full response text (status line, headers and body together)
contains the substring "HTTP/1.1 204" or "HTTP/1.1 200"; a connection
failure is always a hypervisor error, and a response failing the
substring check yields an `ApiRequest` error carrying the raw response
text. -/
theorem C6_amended_contains_check (resp : String) :
    callOk (configureMachine (some resp)) = respOk resp ∧
    callOk (setBootSource (some resp)) = respOk resp ∧
    callOk (addRootDrive (some resp)) = respOk resp ∧
    callOk (startInstance (some resp)) = respOk resp ∧
    callOk (pauseInstance (some resp)) = respOk resp ∧
    callOk (resumeInstance (some resp)) = respOk resp ∧
    configureMachine none = Except.error (FirecrackerError.SocketConnection "connect failed") ∧
    setBootSource none = Except.error (FirecrackerError.SocketConnection "connect failed") ∧
    addRootDrive none = Except.error (FirecrackerError.SocketConnection "connect failed") ∧
    startInstance none = Except.error (FirecrackerError.SocketConnection "connect failed") ∧
    pauseInstance none = Except.error (FirecrackerError.SocketConnection "connect failed") ∧
    resumeInstance none = Except.error (FirecrackerError.SocketConnection "connect failed") ∧
    configureMachine (some resp) =
      (if respOk resp then Except.ok ()
       else Except.error
         (FirecrackerError.ApiRequest ("Failed to configure machine: " ++ resp))) := by
  cases hr : respOk resp <;>
    simp [configureMachine, setBootSource, addRootDrive, startInstance,
      pauseInstance, resumeInstance, clientCall, callOk, hr]

/-! ## Registry shapes of the operations -/

/-- `create_vm` either leaves the registry unchanged or inserts the
fresh record with no process handle. -/
theorem createVm_vms_shape (s : Sys) (nid name : String) (cfg : VmConfig) (ok : Bool) :
    (createVm s nid name cfg ok).1.vms = s.vms ∨
    (createVm s nid name cfg ok).1.vms =
      insertA nid { vm := Vm.new nid name cfg, process := none } s.vms := by
  by_cases hname : s.vms.any (fun p => p.2.vm.name = name)
  · left; simp [createVm, hname]
  · cases ok with
    | false => left; simp [createVm, hname, VmStore.save]
    | true => right; simp [createVm, hname, VmStore.save, Vm.new]

/-- The cold-start path of `start_vm` for the shape lemma. -/
theorem startVm_vms_shape_fresh (s : Sys) (vmId : String) (o : StartOracle)
    (entry : VmEntry) (hl : lookupA vmId s.vms = some entry)
    (hst : entry.vm.state = VmState.Created ∨ entry.vm.state = VmState.Stopped) :
    (startVm s vmId o).1.vms = s.vms ∨
    ∃ entry' handle, lookupA vmId s.vms = some entry' ∧
      (startVm s vmId o).1.vms =
        insertA vmId { vm := { entry'.vm with state := VmState.Running },
                       process := handle } s.vms := by
  rcases hst with hst | hst <;>
  · cases hsp : o.spawnRes with
    | error e => left; simp [startVm, hl, hst, hsp]
    | ok handle =>
      cases hcf : o.configureRes with
      | error e => left; simp [startVm, hl, hst, hsp, hcf]
      | ok u =>
        cases hsr : o.startRes with
        | error e => left; simp [startVm, hl, hst, hsp, hcf, hsr]
        | ok u2 =>
          cases hup : VmStore.update_state s.catalog vmId VmState.Running o.persistOk with
          | error e => left; simp [startVm, hl, hst, hsp, hcf, hsr, hup]
          | ok c' =>
            right
            exact ⟨entry, some handle, hl, by simp [startVm, hl, hst, hsp, hcf, hsr, hup]⟩

/-- `start_vm` either leaves the registry unchanged or replaces the
target entry with the Running copy of the record it found. -/
theorem startVm_vms_shape (s : Sys) (vmId : String) (o : StartOracle) :
    (startVm s vmId o).1.vms = s.vms ∨
    ∃ entry handle, lookupA vmId s.vms = some entry ∧
      (startVm s vmId o).1.vms =
        insertA vmId { vm := { entry.vm with state := VmState.Running },
                       process := handle } s.vms := by
  cases hl : lookupA vmId s.vms with
  | none => left; simp [startVm, hl]
  | some entry =>
    rw [← hl]
    cases hst : entry.vm.state with
    | Created => exact startVm_vms_shape_fresh s vmId o entry hl (Or.inl hst)
    | Stopped => exact startVm_vms_shape_fresh s vmId o entry hl (Or.inr hst)
    | Running => left; simp [startVm, hl, hst]
    | Paused =>
      cases hr : o.resumeRes with
      | error e => left; simp [startVm, hl, hst, hr]
      | ok u =>
        cases hup : VmStore.update_state s.catalog vmId VmState.Running o.persistOk with
        | error e => left; simp [startVm, hl, hst, hr, hup]
        | ok c' =>
          right
          exact ⟨entry, entry.process, hl, by simp [startVm, hl, hst, hr, hup]⟩

/-- `stop_vm` either leaves the registry unchanged or replaces the
target entry with its Stopped copy, handle cleared. -/
theorem stopVm_vms_shape (s : Sys) (vmId : String) (persistOk : Bool) :
    (stopVm s vmId persistOk).1.vms = s.vms ∨
    ∃ entry, lookupA vmId s.vms = some entry ∧
      (stopVm s vmId persistOk).1.vms =
        insertA vmId { vm := { entry.vm with state := VmState.Stopped },
                       process := none } s.vms := by
  cases hl : lookupA vmId s.vms with
  | none => left; simp [stopVm, hl]
  | some entry =>
    rw [← hl]
    cases hst : entry.vm.state with
    | Running => right; exact ⟨entry, hl, by simp [stopVm, hl, hst]⟩
    | Paused => right; exact ⟨entry, hl, by simp [stopVm, hl, hst]⟩
    | Created => left; simp [stopVm, hl, hst]
    | Stopped => left; simp [stopVm, hl, hst]

/-- `pause_vm` either leaves the registry unchanged or replaces the
target entry with its Paused copy, handle kept. -/
theorem pauseVm_vms_shape (s : Sys) (vmId : String)
    (r : Except FirecrackerError Unit) (persistOk : Bool) :
    (pauseVm s vmId r persistOk).1.vms = s.vms ∨
    ∃ entry, lookupA vmId s.vms = some entry ∧
      (pauseVm s vmId r persistOk).1.vms =
        insertA vmId { vm := { entry.vm with state := VmState.Paused },
                       process := entry.process } s.vms := by
  cases hl : lookupA vmId s.vms with
  | none => left; simp [pauseVm, hl]
  | some entry =>
    rw [← hl]
    by_cases hst : entry.vm.state = VmState.Running
    · cases hr : r with
      | error e => left; simp [pauseVm, hl, hst, hr]
      | ok u =>
        cases hup : VmStore.update_state s.catalog vmId VmState.Paused persistOk with
        | error e => left; simp [pauseVm, hl, hst, hr, hup]
        | ok c' =>
          right
          exact ⟨entry, hl, by simp [pauseVm, hl, hst, hr, hup]⟩
    · left; simp [pauseVm, hl, hst]

/-- `delete_vm` either leaves the registry unchanged or erases the key. -/
theorem deleteVm_vms_shape (s : Sys) (vmId : String) (deleteOk : Bool) :
    (deleteVm s vmId deleteOk).1.vms = s.vms ∨
    (deleteVm s vmId deleteOk).1.vms = eraseA vmId s.vms := by
  cases hl : lookupA vmId s.vms with
  | none => left; simp [deleteVm, hl]
  | some entry =>
    cases deleteOk with
    | false => left; simp [deleteVm, hl, VmStore.delete]
    | true => right; simp [deleteVm, hl, VmStore.delete]

/-- Every registry entry produced by the initialization loop either was
already present or carries no process handle. -/
theorem initLoop_vms_mem (saveOk : String → Bool) (recs : List Vm) (s : Sys)
    (p : String × VmEntry) (hp : p ∈ (initLoop saveOk recs s).1.vms) :
    p ∈ s.vms ∨ p.2.process = none := by
  induction recs generalizing s with
  | nil => exact Or.inl hp
  | cons vm rest ih =>
    by_cases hst : vm.state = reconcileVmState vm
    · have hp' : p ∈ (initLoop saveOk rest
          { s with vms := insertA vm.id { vm := vm, process := none } s.vms }).1.vms := by
        simpa [initLoop, hst] using hp
      rcases ih _ hp' with h | h
      · rcases mem_insertA _ _ _ _ h with h' | h'
        · right; rw [h']
        · exact Or.inl h'
      · exact Or.inr h
    · cases hsave : VmStore.save s.catalog { vm with state := reconcileVmState vm }
          (saveOk vm.id) with
      | error e =>
          left
          simpa [initLoop, hst, hsave] using hp
      | ok c' =>
          have hp' : p ∈ (initLoop saveOk rest
              { s with catalog := c',
                       vms := insertA vm.id
                         { vm := { vm with state := reconcileVmState vm },
                           process := none } s.vms }).1.vms := by
            simpa [initLoop, hst, hsave] using hp
          rcases ih _ hp' with h | h
          · rcases mem_insertA _ _ _ _ h with h' | h'
            · right; rw [h']
            · exact Or.inl h'
          · exact Or.inr h

/-! ## C2 — a process handle implies Running or Paused -/

/-- The per-entry invariant: a held process handle forces state Running
or Paused. -/
def entryOk (e : VmEntry) : Prop :=
  e.process.isSome = true →
    e.vm.state = VmState.Running ∨ e.vm.state = VmState.Paused

/-- The registry invariant from §8 of the spec. -/
def ProcInv (s : Sys) : Prop :=
  ∀ p ∈ s.vms, entryOk (p : String × VmEntry).2

theorem entryOk_of_none (e : VmEntry) (h : e.process = none) : entryOk e := by
  intro hs
  rw [h] at hs
  simp at hs

theorem entryOk_of_state (e : VmEntry)
    (h : e.vm.state = VmState.Running ∨ e.vm.state = VmState.Paused) : entryOk e :=
  fun _ => h

/-- Each public operation preserves the registry invariant. -/
theorem ProcInv_step (s : Sys) (op : Op) (h : ProcInv s) : ProcInv (stepOp s op) := by
  cases op with
  | create nid name cfg ok =>
      intro p hp
      simp only [stepOp] at hp
      rcases createVm_vms_shape s nid name cfg ok with hs | hs
      · exact h p (hs ▸ hp)
      · rw [hs] at hp
        rcases mem_insertA _ _ _ _ hp with h' | h'
        · rw [h']; exact entryOk_of_none _ rfl
        · exact h p h'
  | start vmId o =>
      intro p hp
      simp only [stepOp] at hp
      rcases startVm_vms_shape s vmId o with hs | hs
      · exact h p (hs ▸ hp)
      · obtain ⟨entry, handle, -, hs⟩ := hs
        rw [hs] at hp
        rcases mem_insertA _ _ _ _ hp with h' | h'
        · rw [h']; exact entryOk_of_state _ (Or.inl rfl)
        · exact h p h'
  | stop vmId persistOk =>
      intro p hp
      simp only [stepOp] at hp
      rcases stopVm_vms_shape s vmId persistOk with hs | hs
      · exact h p (hs ▸ hp)
      · obtain ⟨entry, -, hs⟩ := hs
        rw [hs] at hp
        rcases mem_insertA _ _ _ _ hp with h' | h'
        · rw [h']; exact entryOk_of_none _ rfl
        · exact h p h'
  | pause vmId r persistOk =>
      intro p hp
      simp only [stepOp] at hp
      rcases pauseVm_vms_shape s vmId r persistOk with hs | hs
      · exact h p (hs ▸ hp)
      · obtain ⟨entry, -, hs⟩ := hs
        rw [hs] at hp
        rcases mem_insertA _ _ _ _ hp with h' | h'
        · rw [h']; exact entryOk_of_state _ (Or.inr rfl)
        · exact h p h'
  | delete vmId deleteOk =>
      intro p hp
      simp only [stepOp] at hp
      rcases deleteVm_vms_shape s vmId deleteOk with hs | hs
      · exact h p (hs ▸ hp)
      · rw [hs] at hp
        exact h p (mem_eraseA _ _ _ hp)
  | init f =>
      intro p hp
      simp only [stepOp] at hp
      rcases initLoop_vms_mem f (s.catalog.map Prod.snd) s p hp with h' | h'
      · exact h p h'
      · exact entryOk_of_none _ h'

/-- The invariant holds along every run. -/
theorem runOps_ProcInv (s : Sys) (ops : List Op) (h : ProcInv s) :
    ProcInv (runOps s ops) := by
  induction ops generalizing s with
  | nil => exact h
  | cons op rest ih => exact ih _ (ProcInv_step s op h)

/-- C2: starting from a fresh manager (empty registry over any catalog),
after any sequence of create/start/stop/pause/delete/initialization
operations with any oracle outcomes, every registry entry that holds a
process handle is in state Running or Paused. -/
theorem C2_handle_implies_running_or_paused (c : Catalog) (ops : List Op) :
    ProcInv (runOps { vms := [], catalog := c, kills := [] } ops) := by
  apply runOps_ProcInv
  intro p hp
  cases hp

/-! ## C7 — name uniqueness of create -/

/-- What a successful `create_vm` guarantees: the returned record is the
freshly constructed one, registered with no handle and persisted. -/
theorem createVm_ok_spec (s : Sys) (nid name : String) (cfg : VmConfig)
    (ok : Bool) (s' : Sys) (v : Vm)
    (h : createVm s nid name cfg ok = (s', Except.ok v)) :
    v = Vm.new nid name cfg ∧
    lookupA v.id s'.vms = some { vm := v, process := none } := by
  by_cases hname : s.vms.any (fun p => p.2.vm.name = name)
  · simp [createVm, hname] at h
  · cases ok with
    | false => simp [createVm, hname, VmStore.save] at h
    | true =>
      simp only [createVm, hname, if_neg, VmStore.save, if_pos, Bool.false_eq_true,
        not_false_eq_true, Prod.mk.injEq, Except.ok.injEq] at h
      obtain ⟨hs', hv⟩ := h
      subst hs'
      subst hv
      exact ⟨rfl, lookupA_insertA_self _ _ _⟩

/-- Operations that cannot displace the registry entry of `vmId`: any
start/stop/pause, a create drawing a different fresh id, a delete of a
different id; initialization replay is excluded. -/
def keepsEntry (vmId : String) : Op → Prop
  | Op.create newId _ _ _ => newId ≠ vmId
  | Op.start _ _ => True
  | Op.stop _ _ => True
  | Op.pause _ _ _ => True
  | Op.delete did _ => did ≠ vmId
  | Op.init _ => False

/-- One benign operation keeps the entry present with its name. -/
theorem keeps_name_step (s : Sys) (op : Op) (vmId : String) (e : VmEntry)
    (hl : lookupA vmId s.vms = some e) (hk : keepsEntry vmId op) :
    ∃ e', lookupA vmId (stepOp s op).vms = some e' ∧ e'.vm.name = e.vm.name := by
  cases op with
  | create nid name cfg ok =>
      rcases createVm_vms_shape s nid name cfg ok with hs | hs
      · exact ⟨e, by simp only [stepOp]; rw [hs]; exact hl, rfl⟩
      · refine ⟨e, ?_, rfl⟩
        simp only [stepOp]
        rw [hs, lookupA_insertA_ne _ _ _ _ hk]
        exact hl
  | start id o =>
      rcases startVm_vms_shape s id o with hs | hs
      · exact ⟨e, by simp only [stepOp]; rw [hs]; exact hl, rfl⟩
      · obtain ⟨entry, handle, hle, hs⟩ := hs
        by_cases hid : id = vmId
        · subst hid
          have hee : entry = e := by
            rw [hl] at hle
            exact (Option.some.inj hle).symm
          subst hee
          refine ⟨{ vm := { entry.vm with state := VmState.Running },
                    process := handle }, ?_, rfl⟩
          simp only [stepOp]
          rw [hs]
          exact lookupA_insertA_self _ _ _
        · refine ⟨e, ?_, rfl⟩
          simp only [stepOp]
          rw [hs, lookupA_insertA_ne _ _ _ _ hid]
          exact hl
  | stop id persistOk =>
      rcases stopVm_vms_shape s id persistOk with hs | hs
      · exact ⟨e, by simp only [stepOp]; rw [hs]; exact hl, rfl⟩
      · obtain ⟨entry, hle, hs⟩ := hs
        by_cases hid : id = vmId
        · subst hid
          have hee : entry = e := by
            rw [hl] at hle
            exact (Option.some.inj hle).symm
          subst hee
          refine ⟨{ vm := { entry.vm with state := VmState.Stopped },
                    process := none }, ?_, rfl⟩
          simp only [stepOp]
          rw [hs]
          exact lookupA_insertA_self _ _ _
        · refine ⟨e, ?_, rfl⟩
          simp only [stepOp]
          rw [hs, lookupA_insertA_ne _ _ _ _ hid]
          exact hl
  | pause id r persistOk =>
      rcases pauseVm_vms_shape s id r persistOk with hs | hs
      · exact ⟨e, by simp only [stepOp]; rw [hs]; exact hl, rfl⟩
      · obtain ⟨entry, hle, hs⟩ := hs
        by_cases hid : id = vmId
        · subst hid
          have hee : entry = e := by
            rw [hl] at hle
            exact (Option.some.inj hle).symm
          subst hee
          refine ⟨{ vm := { entry.vm with state := VmState.Paused },
                    process := entry.process }, ?_, rfl⟩
          simp only [stepOp]
          rw [hs]
          exact lookupA_insertA_self _ _ _
        · refine ⟨e, ?_, rfl⟩
          simp only [stepOp]
          rw [hs, lookupA_insertA_ne _ _ _ _ hid]
          exact hl
  | delete did deleteOk =>
      rcases deleteVm_vms_shape s did deleteOk with hs | hs
      · exact ⟨e, by simp only [stepOp]; rw [hs]; exact hl, rfl⟩
      · refine ⟨e, ?_, rfl⟩
        simp only [stepOp]
        rw [hs, lookupA_eraseA_ne _ _ _ hk]
        exact hl
  | init f => exact hk.elim

/-- A run of benign operations keeps the entry present with its name. -/
theorem keeps_name_run (s : Sys) (σ : List Op) (vmId : String) (e : VmEntry)
    (hl : lookupA vmId s.vms = some e) (hσ : ∀ op ∈ σ, keepsEntry vmId op) :
    ∃ e', lookupA vmId (runOps s σ).vms = some e' ∧ e'.vm.name = e.vm.name := by
  induction σ generalizing s e with
  | nil => exact ⟨e, hl, rfl⟩
  | cons op rest ih =>
      obtain ⟨e', hl', hn⟩ :=
        keeps_name_step s op vmId e hl (hσ op (List.mem_cons_self _ _))
      obtain ⟨e'', hl'', hn'⟩ :=
        ih (stepOp s op) e' hl' (fun op' hop' => hσ op' (List.mem_cons_of_mem _ hop'))
      exact ⟨e'', hl'', hn'.trans hn⟩

/-- C7: after a successful `create(name, …)`, as long as the created VM
is not deleted (interleaved starts/stops/pauses, creates of other ids
and deletes of other ids are fine), a second `create` with the same name
fails with `VmAlreadyExists` — so the two calls cannot both succeed. -/
theorem C7_create_name_unique (s : Sys) (nid name : String) (cfg : VmConfig)
    (ok : Bool) (s₁ : Sys) (vm : Vm)
    (hc : createVm s nid name cfg ok = (s₁, Except.ok vm))
    (σ : List Op) (hσ : ∀ op ∈ σ, keepsEntry vm.id op)
    (nid2 : String) (cfg2 : VmConfig) (ok2 : Bool) :
    (createVm (runOps s₁ σ) nid2 name cfg2 ok2).2 =
      Except.error (VmManagerError.VmAlreadyExists name) := by
  obtain ⟨hv, hlook⟩ := createVm_ok_spec s nid name cfg ok s₁ vm hc
  have hnm : vm.name = name := by rw [hv]; rfl
  obtain ⟨e', hl', hn⟩ :=
    keeps_name_run s₁ σ vm.id { vm := vm, process := none } hlook hσ
  have hany : ((runOps s₁ σ).vms.any (fun p => p.2.vm.name = name)) = true := by
    apply List.any_eq_true.mpr
    refine ⟨(vm.id, e'), lookupA_mem _ _ _ hl', ?_⟩
    simp only [hn]
    simp [hnm]
  simp [createVm, hany]

/-- Witness for C7: create "test-vm", then a second create with the same
name (fresh id, empty interleaving) is rejected. -/
theorem C7_create_name_unique_witness :
    (createVm (runOps (createVm sysEmpty "vm-1" "test-vm" cfgW true).1 [])
        "vm-2" "test-vm" cfgW true).2 =
      Except.error (VmManagerError.VmAlreadyExists "test-vm") :=
  C7_create_name_unique sysEmpty "vm-1" "test-vm" cfgW true
    (createVm sysEmpty "vm-1" "test-vm" cfgW true).1
    (Vm.new "vm-1" "test-vm" cfgW) rfl
    [] (fun op hop => absurd hop (List.not_mem_nil op))
    "vm-2" cfgW true

/-! ## C3 — restart fidelity of initialization -/

/-- With duplicate-free keys, membership determines the lookup. -/
theorem lookupA_of_mem_nodup (l : List (String × α)) (k : String) (v : α)
    (hmem : (k, v) ∈ l) (hnodup : (l.map Prod.fst).Nodup) :
    lookupA k l = some v := by
  induction l with
  | nil => cases hmem
  | cons p rest ih =>
      obtain ⟨k', v'⟩ := p
      simp only [List.map_cons, List.nodup_cons] at hnodup
      rcases List.mem_cons.mp hmem with h | h
      · obtain ⟨hk, hv⟩ := Prod.mk.injEq .. ▸ h
        simp [lookupA, hk.symm, hv.symm]
      · by_cases hk : k' = k
        · subst hk
          exact absurd (List.mem_map_of_mem Prod.fst h) hnodup.1
        · simp only [lookupA, if_neg hk]
          exact ih h hnodup.2

/-- Records whose ids all differ from `id` leave the lookups at `id`
untouched through the initialization loop. -/
theorem initLoop_frame (saveOk : String → Bool) (recs : List Vm) (s : Sys)
    (id : String) (hid : ∀ vm ∈ recs, vm.id ≠ id) :
    lookupA id (initLoop saveOk recs s).1.vms = lookupA id s.vms ∧
    lookupA id (initLoop saveOk recs s).1.catalog = lookupA id s.catalog := by
  induction recs generalizing s with
  | nil => exact ⟨rfl, rfl⟩
  | cons vm rest ih =>
      have hvm : vm.id ≠ id := hid vm (List.mem_cons_self _ _)
      have hrest : ∀ v ∈ rest, v.id ≠ id := fun v hv => hid v (List.mem_cons_of_mem _ hv)
      by_cases hst : vm.state = reconcileVmState vm
      · have h := ih { s with vms := insertA vm.id { vm := vm, process := none } s.vms } hrest
        simp only [initLoop, if_pos hst]
        refine ⟨?_, h.2⟩
        rw [h.1]
        exact lookupA_insertA_ne _ _ _ _ hvm
      · simp only [initLoop, if_neg hst]
        cases hsave : VmStore.save s.catalog { vm with state := reconcileVmState vm }
            (saveOk vm.id) with
        | error e => exact ⟨rfl, rfl⟩
        | ok c' =>
            have hc' : c' = insertA vm.id { vm with state := reconcileVmState vm } s.catalog := by
              unfold VmStore.save at hsave
              split at hsave
              · exact (Except.ok.inj hsave).symm
              · simp at hsave
            have h := ih { s with catalog := c',
                                  vms := insertA vm.id
                                    { vm := { vm with state := reconcileVmState vm },
                                      process := none } s.vms } hrest
            refine ⟨?_, ?_⟩
            · rw [h.1]
              exact lookupA_insertA_ne _ _ _ _ hvm
            · rw [h.2]
              simp only
              rw [hc']
              exact lookupA_insertA_ne _ _ _ _ hvm

/-- What a successful initialization loop does for each of its records:
the registry holds the reconciled record with no handle, and the catalog
holds the write-back exactly when reconciliation changed the state. -/
theorem initLoop_ok_lookup (saveOk : String → Bool) (recs : List Vm) (s : Sys)
    (s' : Sys) (hrun : initLoop saveOk recs s = (s', Except.ok ()))
    (hnodup : (recs.map Vm.id).Nodup)
    (vm : Vm) (hvm : vm ∈ recs) :
    lookupA vm.id s'.vms =
      some { vm := { vm with state := reconcileVmState vm }, process := none } ∧
    (vm.state = reconcileVmState vm →
       lookupA vm.id s'.catalog = lookupA vm.id s.catalog) ∧
    (vm.state ≠ reconcileVmState vm →
       lookupA vm.id s'.catalog = some { vm with state := reconcileVmState vm }) := by
  induction recs generalizing s with
  | nil => cases hvm
  | cons v rest ih =>
      simp only [List.map_cons, List.nodup_cons] at hnodup
      rcases List.mem_cons.mp hvm with hv | hv
      · subst hv
        have hrest : ∀ w ∈ rest, w.id ≠ vm.id := by
          intro w hw hEq
          exact hnodup.1 (hEq ▸ List.mem_map_of_mem Vm.id hw)
        by_cases hst : vm.state = reconcileVmState vm
        · have hrun' : initLoop saveOk rest
              { s with vms := insertA vm.id { vm := vm, process := none } s.vms } =
              (s', Except.ok ()) := by
            rw [← hrun]
            simp [initLoop, hst]
          obtain ⟨hv1, hc1⟩ := initLoop_frame saveOk rest
            { s with vms := insertA vm.id { vm := vm, process := none } s.vms } vm.id hrest
          rw [hrun'] at hv1 hc1
          refine ⟨?_, fun _ => hc1, fun hne => absurd hst hne⟩
          rw [hv1, lookupA_insertA_self, ← hst]
        · cases hsave : VmStore.save s.catalog { vm with state := reconcileVmState vm }
              (saveOk vm.id) with
          | error e =>
              simp [initLoop, hst, hsave] at hrun
          | ok c' =>
              have hc' : c' =
                  insertA vm.id { vm with state := reconcileVmState vm } s.catalog := by
                unfold VmStore.save at hsave
                split at hsave
                · exact (Except.ok.inj hsave).symm
                · simp at hsave
              have hrun' : initLoop saveOk rest
                  { s with catalog := c',
                           vms := insertA vm.id
                             { vm := { vm with state := reconcileVmState vm },
                               process := none } s.vms } =
                  (s', Except.ok ()) := by
                rw [← hrun]
                simp [initLoop, hst, hsave]
              obtain ⟨hv1, hc1⟩ := initLoop_frame saveOk rest
                { s with catalog := c',
                         vms := insertA vm.id
                           { vm := { vm with state := reconcileVmState vm },
                             process := none } s.vms } vm.id hrest
              rw [hrun'] at hv1 hc1
              refine ⟨?_, fun heq => absurd heq hst, fun _ => ?_⟩
              · rw [hv1, lookupA_insertA_self]
              · rw [hc1]
                simp only
                rw [hc']
                exact lookupA_insertA_self _ _ _
      · have hne : v.id ≠ vm.id := by
          intro hEq
          exact hnodup.1 (hEq ▸ List.mem_map_of_mem Vm.id hv)
        by_cases hst : v.state = reconcileVmState v
        · have hrun' : initLoop saveOk rest
              { s with vms := insertA v.id { vm := v, process := none } s.vms } =
              (s', Except.ok ()) := by
            rw [← hrun]
            simp [initLoop, hst]
          obtain ⟨h1, h2, h3⟩ := ih _ hrun' hnodup.2 hv
          exact ⟨h1, h2, h3⟩
        · cases hsave : VmStore.save s.catalog { v with state := reconcileVmState v }
              (saveOk v.id) with
          | error e =>
              simp [initLoop, hst, hsave] at hrun
          | ok c' =>
              have hc' : c' =
                  insertA v.id { v with state := reconcileVmState v } s.catalog := by
                unfold VmStore.save at hsave
                split at hsave
                · exact (Except.ok.inj hsave).symm
                · simp at hsave
              have hrun' : initLoop saveOk rest
                  { s with catalog := c',
                           vms := insertA v.id
                             { vm := { v with state := reconcileVmState v },
                               process := none } s.vms } =
                  (s', Except.ok ()) := by
                rw [← hrun]
                simp [initLoop, hst, hsave]
              obtain ⟨h1, h2, h3⟩ := ih _ hrun' hnodup.2 hv
              refine ⟨h1, ?_, ?_⟩
              · intro heq
                rw [h2 heq]
                simp only
                rw [hc']
                exact lookupA_insertA_ne _ _ _ _ hne
              · exact h3

/-- C3: after a successful initialization over a catalog (keys are the
record ids, duplicate-free), every record persisted as Created or
Stopped is registered with exactly that state and its catalog row
untouched, and every record persisted as Running or Paused is registered
as Stopped with Stopped also written back to the catalog — in all cases
with no process handle. -/
theorem C3_restart_fidelity (s : Sys) (f : String → Bool) (s' : Sys)
    (hrun : initManager s f = (s', Except.ok ()))
    (hkeys : ∀ p ∈ s.catalog, (p : String × Vm).2.id = p.1)
    (hnodup : (s.catalog.map Prod.fst).Nodup)
    (id : String) (vm : Vm) (hmem : (id, vm) ∈ s.catalog) :
    ((vm.state = VmState.Created ∨ vm.state = VmState.Stopped) →
       lookupA id s'.vms = some { vm := vm, process := none } ∧
       lookupA id s'.catalog = some vm) ∧
    ((vm.state = VmState.Running ∨ vm.state = VmState.Paused) →
       lookupA id s'.vms =
         some { vm := { vm with state := VmState.Stopped }, process := none } ∧
       lookupA id s'.catalog = some { vm with state := VmState.Stopped }) := by
  have hid : vm.id = id := hkeys (id, vm) hmem
  have hvmrec : vm ∈ s.catalog.map Prod.snd := List.mem_map_of_mem Prod.snd hmem
  have hmapids : (s.catalog.map Prod.snd).map Vm.id = s.catalog.map Prod.fst := by
    rw [List.map_map]
    exact List.map_congr_left hkeys
  have hnodup' : ((s.catalog.map Prod.snd).map Vm.id).Nodup := by
    rw [hmapids]; exact hnodup
  have hloop : initLoop f (s.catalog.map Prod.snd) s = (s', Except.ok ()) := by
    unfold initManager at hrun
    cases hE : initLoop f (s.catalog.map Prod.snd) s with
    | mk a b =>
        rw [hE] at hrun
        simp only [Prod.mk.injEq] at hrun
        cases b with
        | error e => simp [Except.mapError] at hrun
        | ok u =>
            obtain ⟨ha, -⟩ := hrun
            subst ha
            rfl
  obtain ⟨h1, h2, h3⟩ := initLoop_ok_lookup f (s.catalog.map Prod.snd) s s'
    hloop hnodup' vm hvmrec
  have hcat : lookupA vm.id s.catalog = some vm := by
    rw [hid]
    exact lookupA_of_mem_nodup _ _ _ hmem hnodup
  constructor
  · rintro (hst | hst)
    · have hrec : reconcileVmState vm = vm.state := by rw [reconcileVmState, hst]
      constructor
      · rw [← hid, h1, hrec]
      · rw [← hid, h2 (by rw [hrec]), hcat]
    · have hrec : reconcileVmState vm = vm.state := by rw [reconcileVmState, hst]
      constructor
      · rw [← hid, h1, hrec]
      · rw [← hid, h2 (by rw [hrec]), hcat]
  · rintro (hst | hst)
    · have hrec : reconcileVmState vm = VmState.Stopped := by
        rw [reconcileVmState, hst]
      have hne : vm.state ≠ reconcileVmState vm := by
        rw [hrec, hst]
        exact fun hEq => VmState.noConfusion hEq
      constructor
      · rw [← hid, h1, hrec]
      · rw [← hid, h3 hne, hrec]
    · have hrec : reconcileVmState vm = VmState.Stopped := by
        rw [reconcileVmState, hst]
      have hne : vm.state ≠ reconcileVmState vm := by
        rw [hrec, hst]
        exact fun hEq => VmState.noConfusion hEq
      constructor
      · rw [← hid, h1, hrec]
      · rw [← hid, h3 hne, hrec]

/-- A sample record persisted as Running (as after a crash). -/
def vmB : Vm := { Vm.new "vm-b" "beta" cfgW with state := VmState.Running }

/-- A catalog holding a Created record and a Running record. -/
def catInit : Catalog := [("vm-1", vmW), ("vm-b", vmB)]

/-- A fresh manager over that catalog, before initialization. -/
def sysInit : Sys := { vms := [], catalog := catInit, kills := [] }

/-- Witness for C3: initializing over the sample catalog reconciles the
Running record to Stopped in both registry and catalog. -/
theorem C3_restart_fidelity_witness :
    ((vmB.state = VmState.Created ∨ vmB.state = VmState.Stopped) →
       lookupA "vm-b" (initManager sysInit (fun _ => true)).1.vms =
         some { vm := vmB, process := none } ∧
       lookupA "vm-b" (initManager sysInit (fun _ => true)).1.catalog = some vmB) ∧
    ((vmB.state = VmState.Running ∨ vmB.state = VmState.Paused) →
       lookupA "vm-b" (initManager sysInit (fun _ => true)).1.vms =
         some { vm := { vmB with state := VmState.Stopped }, process := none } ∧
       lookupA "vm-b" (initManager sysInit (fun _ => true)).1.catalog =
         some { vmB with state := VmState.Stopped }) :=
  C3_restart_fidelity sysInit (fun _ => true) (initManager sysInit (fun _ => true)).1
    rfl (by decide) (by decide) "vm-b" vmB (by decide)

end Glidex
